import Mathlib

/-!
Shallow embedding of the market-data handlers of `src/data/dataHandler.py`
and the event types of `src/event.py`.

Timestamps are modelled as natural numbers (the source uses ISO date strings
whose lexicographic order agrees with chronological order); prices and
volumes are modelled as integers, since no verified property depends on
fractional arithmetic.  Python dictionaries keyed by symbol are modelled as
total functions out of `String` together with an explicit key list where the
source tests key membership.
-/

set_option autoImplicit false

namespace Trading

/-- One row of OHLCV values: the columns of a per-symbol dataframe.  The
timestamp is kept separately, as the dataframe index is in the source. -/
structure BarRow where
  open_ : Int
  high : Int
  low : Int
  close : Int
  volume : Int
  deriving DecidableEq, Repr

/-- A per-symbol series: the dataframe rows paired with their index
timestamps, in index order. -/
abbrev Series := List (Nat × BarRow)

/-- The timestamp index of a series (`df.index`). -/
def tsIndex (df : Series) : List Nat := df.map Prod.fst

/-- The bar dictionary yielded by `HistoricCSVDataHandler._get_new_bar`:
symbol, datetime and the five OHLCV fields. -/
structure Bar where
  symbol : String
  datetime : Nat
  open_ : Int
  high : Int
  low : Int
  close : Int
  volume : Int
  deriving DecidableEq, Repr

/-- Build the `_get_new_bar` dictionary from a symbol and an indexed row. -/
def mkBar (symbol : String) (t : Nat) (r : BarRow) : Bar :=
  ⟨symbol, t, r.open_, r.high, r.low, r.close, r.volume⟩

/-- Sample OHLCV rows used by concrete witnesses. -/
def rowOne : BarRow := ⟨10, 11, 9, 10, 100⟩

def rowTwo : BarRow := ⟨11, 12, 10, 11, 120⟩

def barOne : Bar := mkBar "A" 1 rowOne

def barTwo : Bar := mkBar "A" 2 rowTwo

/-- The dictionary of parallel field lists returned by
`HistoricCSVDataHandler.get_latest_bars`. -/
structure BarWindow where
  symbol : String
  datetime : List Nat
  open_ : List Int
  high : List Int
  low : List Int
  close : List Int
  volume : List Int
  deriving DecidableEq, Repr

/-- The `MarketEvent` of `src/event.py`: its constructor stores only the
string `"MARKET"` in its single field `type`. -/
structure MarketEvent where
  type : String
  deriving DecidableEq, Repr

/-- The value built by `MarketEvent()` in the source. -/
def MarketEvent.marker : MarketEvent := ⟨"MARKET"⟩

/-- Runtime state of a constructed `HistoricCSVDataHandler`:
the symbol universe, the per-symbol replay cursors (`symbol_data`, after
`_to_generator` each holds the not-yet-consumed rows), the key set and
contents of the rolling history dictionary `latest_symbol_data`, the
`continue_backtest` flag and the FIFO event queue. -/
structure HState where
  symbol_list : List String
  symbol_data : String → Series
  latest_keys : List String
  latest_symbol_data : String → List Bar
  continue_backtest : Bool
  events : List MarketEvent

/-- Python's slice `l[-N:]` for a natural `N`: with `N = 0` the slice is
`l[0:]`, the whole list; otherwise the last `N` elements. -/
def pyLastSlice {α : Type} (l : List α) (N : Nat) : List α :=
  if N = 0 then l else l.drop (l.length - N)

/-- Assemble the parallel field lists of `get_latest_bars` from the selected
window of bar dictionaries (with `bar['symbol']` overwritten at the end). -/
def mkBarWindow (symbol : String) (w : List Bar) : BarWindow :=
  { symbol := symbol
  , datetime := w.map (·.datetime)
  , open_ := w.map (·.open_)
  , high := w.map (·.high)
  , low := w.map (·.low)
  , close := w.map (·.close)
  , volume := w.map (·.volume) }

/-- `HistoricCSVDataHandler.get_latest_bars`: when the symbol is a key of
`latest_symbol_data` it returns the bar window built from the slice
`latest_symbol_data[symbol][-N:]`, otherwise it logs an error and returns
`None`.  The second component records whether `logging.error` ran. -/
def get_latest_bars (st : HState) (symbol : String) (N : Nat) :
    Option BarWindow × Bool :=
  if symbol ∈ st.latest_keys then
    (some (mkBarWindow symbol (pyLastSlice (st.latest_symbol_data symbol) N)), false)
  else
    (none, true)

/-- One iteration of the loop body of `HistoricCSVDataHandler.update_bars`:
`next(self._get_new_bar(s))` either raises `StopIteration` (empty cursor),
which sets `continue_backtest = False`, or consumes one row and appends the
resulting bar to `latest_symbol_data[s]`. -/
def updateStep (st : HState) (s : String) : HState :=
  match st.symbol_data s with
  | [] => { st with continue_backtest := false }
  | (t, r) :: rest =>
      { st with
        symbol_data := fun x => if x = s then rest else st.symbol_data x
        latest_symbol_data := fun x =>
          if x = s then st.latest_symbol_data s ++ [mkBar s t r]
          else st.latest_symbol_data x }

/-- `HistoricCSVDataHandler.update_bars`: run the loop body over
`symbol_list`, then push exactly one `MarketEvent()` onto the queue. -/
def update_bars (st : HState) : HState :=
  let st' := st.symbol_list.foldl updateStep st
  { st' with events := st'.events ++ [MarketEvent.marker] }

/-- The state after `k` calls to `update_bars` ("advances"). -/
def advanceN (st : HState) : Nat → HState
  | 0 => st
  | k + 1 => update_bars (advanceN st k)

/-- A freshly constructed handler tracking the single symbol `"A"` whose
replay cursor holds two bars. -/
def sampleState : HState :=
  { symbol_list := ["A"]
  , symbol_data := fun x => if x = "A" then [(1, rowOne), (2, rowTwo)] else []
  , latest_keys := ["A"]
  , latest_symbol_data := fun _ => []
  , continue_backtest := true
  , events := [] }

/-- A handler state in which symbol `"A"` already has two bars of rolling
history. -/
def sampleState2 : HState :=
  { symbol_list := ["A"]
  , symbol_data := fun _ => []
  , latest_keys := ["A"]
  , latest_symbol_data := fun x => if x = "A" then [barOne, barTwo] else []
  , continue_backtest := true
  , events := [] }

/-- A handler state whose single symbol `"A"` has an exhausted replay
cursor. -/
def exhaustedState : HState :=
  { symbol_list := ["A"]
  , symbol_data := fun _ => []
  , latest_keys := ["A"]
  , latest_symbol_data := fun _ => []
  , continue_backtest := true
  , events := [] }

theorem updateStep_events (st : HState) (s : String) :
    (updateStep st s).events = st.events := by
  unfold updateStep; split <;> rfl

theorem updateStep_symbol_list (st : HState) (s : String) :
    (updateStep st s).symbol_list = st.symbol_list := by
  unfold updateStep; split <;> rfl

theorem updateStep_latest_keys (st : HState) (s : String) :
    (updateStep st s).latest_keys = st.latest_keys := by
  unfold updateStep; split <;> rfl

theorem updateStep_continue_mono (st : HState) (s : String)
    (h : st.continue_backtest = false) :
    (updateStep st s).continue_backtest = false := by
  unfold updateStep; split
  · rfl
  · exact h

theorem foldl_updateStep_events (l : List String) (st : HState) :
    (l.foldl updateStep st).events = st.events := by
  induction l generalizing st with
  | nil => rfl
  | cons s rest ih => rw [List.foldl_cons, ih, updateStep_events]

theorem foldl_updateStep_symbol_list (l : List String) (st : HState) :
    (l.foldl updateStep st).symbol_list = st.symbol_list := by
  induction l generalizing st with
  | nil => rfl
  | cons s rest ih => rw [List.foldl_cons, ih, updateStep_symbol_list]

theorem foldl_updateStep_latest_keys (l : List String) (st : HState) :
    (l.foldl updateStep st).latest_keys = st.latest_keys := by
  induction l generalizing st with
  | nil => rfl
  | cons s rest ih => rw [List.foldl_cons, ih, updateStep_latest_keys]

theorem foldl_updateStep_continue_mono (l : List String) (st : HState)
    (h : st.continue_backtest = false) :
    (l.foldl updateStep st).continue_backtest = false := by
  induction l generalizing st with
  | nil => exact h
  | cons s rest ih => rw [List.foldl_cons]; exact ih _ (updateStep_continue_mono st s h)

/-- `HistoricCSVDataHandler.update_bars` itself pushes exactly one
`MarketEvent` marker onto the FIFO event queue, whatever the state (also
when one or more symbol cursors exhaust during the call), and the pushed
event carries nothing beyond its marker type `"MARKET"`. -/
theorem update_bars_single_market_event (st : HState) :
    (update_bars st).events = st.events ++ [MarketEvent.marker]
      ∧ MarketEvent.marker.type = "MARKET" := by
  refine ⟨?_, rfl⟩
  show (st.symbol_list.foldl updateStep st).events ++ [MarketEvent.marker]
      = st.events ++ [MarketEvent.marker]
  rw [foldl_updateStep_events]

/-- `FMPData.update_bars` in backtest mode (`live=False`): the branch calls
`super().update_bars()` — `HistoricCSVDataHandler.update_bars`, which
already pushes one `MarketEvent` — and, unlike the non-live branches of
`TDAData.update_bars` and `AlpacaData.update_bars`, it does not `return`,
so control falls through to the method's final
`self.events.put(MarketEvent())` and a second marker is pushed. -/
def fmp_update_bars_backtest (st : HState) : HState :=
  let st' := update_bars st
  { st' with events := st'.events ++ [MarketEvent.marker] }

/-- C5: the claim that every `update_bars` call pushes exactly one
`MarketEvent` fails on `FMPData`: one backtest-mode advance appends two
markers to the event queue — one from the inherited
`HistoricCSVDataHandler.update_bars`, a second from the fall-through
`events.put(MarketEvent())`, since the non-live branch is missing the
`return` its sibling classes have — so the queue grows by two, not one. -/
theorem fmp_update_bars_two_events (st : HState) :
    (fmp_update_bars_backtest st).events
        = st.events ++ [MarketEvent.marker, MarketEvent.marker]
      ∧ (fmp_update_bars_backtest st).events.length = st.events.length + 2 := by
  have h1 : (update_bars st).events = st.events ++ [MarketEvent.marker] := by
    show (st.symbol_list.foldl updateStep st).events ++ [MarketEvent.marker]
        = st.events ++ [MarketEvent.marker]
    rw [foldl_updateStep_events]
  have h2 : (fmp_update_bars_backtest st).events
      = st.events ++ [MarketEvent.marker, MarketEvent.marker] := by
    show (update_bars st).events ++ [MarketEvent.marker]
        = st.events ++ [MarketEvent.marker, MarketEvent.marker]
    rw [h1, List.append_assoc]
    rfl
  refine ⟨h2, ?_⟩
  rw [h2, List.length_append]
  rfl

/-- C9: calling `get_latest_bars` for a symbol that is not a key of
`latest_symbol_data` (excluded at construction or never tracked) returns no
bar window (`none`) and runs `logging.error`, so the condition is reported
rather than silently swallowed. -/
theorem get_latest_bars_unknown_symbol (st : HState) (symbol : String) (N : Nat)
    (h : symbol ∉ st.latest_keys) :
    get_latest_bars st symbol N = (none, true) := by
  unfold get_latest_bars
  rw [if_neg h]

/-- C10: for a tracked symbol, `get_latest_bars(symbol, 0)` returns the
entire recorded history, because the slice `[-0:]` selects the full list. -/
theorem get_latest_bars_zero_returns_all (st : HState) (symbol : String)
    (h : symbol ∈ st.latest_keys) :
    get_latest_bars st symbol 0 =
      (some (mkBarWindow symbol (st.latest_symbol_data symbol)), false) := by
  unfold get_latest_bars pyLastSlice
  rw [if_pos h, if_pos rfl]

theorem pyLastSlice_suffix {α : Type} (l : List α) (N : Nat) :
    pyLastSlice l N <:+ l := by
  unfold pyLastSlice; split
  · exact List.suffix_refl l
  · exact List.drop_suffix _ _

theorem pyLastSlice_length_le {α : Type} (l : List α) (N : Nat) (h : 1 ≤ N) :
    (pyLastSlice l N).length ≤ N := by
  unfold pyLastSlice
  rw [if_neg (by omega), List.length_drop]
  omega

theorem pyLastSlice_length_le_length {α : Type} (l : List α) (N : Nat) :
    (pyLastSlice l N).length ≤ l.length :=
  (pyLastSlice_suffix l N).length_le

theorem updateStep_latest_length (st : HState) (s x : String) :
    ((updateStep st s).latest_symbol_data x).length ≤
      (st.latest_symbol_data x).length + (if x = s then 1 else 0) := by
  unfold updateStep; split
  · exact Nat.le_add_right _ _
  · by_cases hx : x = s
    · subst hx; simp
    · simp [hx]

theorem foldl_updateStep_latest_length (l : List String) (st : HState) (x : String) :
    ((l.foldl updateStep st).latest_symbol_data x).length ≤
      (st.latest_symbol_data x).length + l.count x := by
  induction l generalizing st with
  | nil => simp
  | cons s rest ih =>
    rw [List.foldl_cons]
    have h1 := updateStep_latest_length st s x
    have h2 := ih (updateStep st s)
    have hc : (s :: rest).count x = rest.count x + (if x = s then 1 else 0) := by
      by_cases hx : x = s
      · subst hx; simp
      · simp [hx, Ne.symm hx]
    omega

theorem update_bars_symbol_list (st : HState) :
    (update_bars st).symbol_list = st.symbol_list :=
  foldl_updateStep_symbol_list st.symbol_list st

theorem update_bars_latest_keys (st : HState) :
    (update_bars st).latest_keys = st.latest_keys :=
  foldl_updateStep_latest_keys st.symbol_list st

theorem update_bars_latest_length (st : HState) (x : String)
    (hnd : st.symbol_list.Nodup) :
    ((update_bars st).latest_symbol_data x).length ≤
      (st.latest_symbol_data x).length + 1 := by
  have h1 := foldl_updateStep_latest_length st.symbol_list st x
  have h2 : st.symbol_list.count x ≤ 1 :=
    List.nodup_iff_count_le_one.mp hnd x
  have h3 : ((update_bars st).latest_symbol_data x).length
      = ((st.symbol_list.foldl updateStep st).latest_symbol_data x).length := rfl
  omega

theorem advanceN_symbol_list (st : HState) (k : Nat) :
    (advanceN st k).symbol_list = st.symbol_list := by
  induction k with
  | zero => rfl
  | succ k ih => rw [advanceN, update_bars_symbol_list, ih]

theorem advanceN_latest_keys (st : HState) (k : Nat) :
    (advanceN st k).latest_keys = st.latest_keys := by
  induction k with
  | zero => rfl
  | succ k ih => rw [advanceN, update_bars_latest_keys, ih]

theorem advanceN_latest_length (st : HState) (x : String) (k : Nat)
    (hnd : st.symbol_list.Nodup) :
    ((advanceN st k).latest_symbol_data x).length ≤
      (st.latest_symbol_data x).length + k := by
  induction k with
  | zero => simp [advanceN]
  | succ k ih =>
    have hnd' : (advanceN st k).symbol_list.Nodup := by
      rw [advanceN_symbol_list]; exact hnd
    have h1 := update_bars_latest_length (advanceN st k) x hnd'
    rw [advanceN]
    omega

/-- C3 (amended): for a tracked symbol of a freshly constructed handler whose
symbol universe has no duplicate entries, after `k` advances a call to
`get_latest_bars` with `N ≥ 1` returns exactly the slice
`latest_symbol_data[symbol][-N:]` as parallel field lists; that window has
at most `N` entries, never more entries than the `k` advances completed so
far, and is a suffix of the rolling history, hence ordered oldest-first
within the returned window. -/
theorem get_latest_bars_window_bounds (st : HState) (symbol : String) (N k : Nat)
    (hN : 1 ≤ N) (hnd : st.symbol_list.Nodup)
    (h0 : st.latest_symbol_data symbol = [])
    (htr : symbol ∈ st.latest_keys) :
    get_latest_bars (advanceN st k) symbol N =
        (some (mkBarWindow symbol
          (pyLastSlice ((advanceN st k).latest_symbol_data symbol) N)), false)
      ∧ (pyLastSlice ((advanceN st k).latest_symbol_data symbol) N).length ≤ N
      ∧ (pyLastSlice ((advanceN st k).latest_symbol_data symbol) N).length ≤ k
      ∧ pyLastSlice ((advanceN st k).latest_symbol_data symbol) N
          <:+ (advanceN st k).latest_symbol_data symbol := by
  have hkeys : symbol ∈ (advanceN st k).latest_keys := by
    rw [advanceN_latest_keys]; exact htr
  refine ⟨?_, pyLastSlice_length_le _ _ hN, ?_, pyLastSlice_suffix _ _⟩
  · unfold get_latest_bars; rw [if_pos hkeys]
  · have h1 := pyLastSlice_length_le_length
      ((advanceN st k).latest_symbol_data symbol) N
    have h2 := advanceN_latest_length st symbol k hnd
    rw [h0] at h2
    simpa using Nat.le_trans h1 h2

/-- The all-zero row produced by `reindex(..., fill_value=0)` for positions
before a symbol's first observation. -/
def zeroRow : BarRow := ⟨0, 0, 0, 0, 0⟩

/-- Forward-fill lookup: the row at the last index position at or before
`t`, or the zero fill row if there is none.  This is `method='pad'` with
`fill_value=0` on a monotonic source index. -/
def lastLE (df : Series) (t : Nat) : BarRow :=
  match (df.filter (fun q => decide (q.1 ≤ t))).getLast? with
  | some q => q.2
  | none => zeroRow

/-- `df.reindex(index=idx, method='pad', fill_value=0)`. -/
def padReindex (idx : List Nat) (df : Series) : Series :=
  idx.map (fun t => (t, lastLE df t))

theorem tsIndex_padReindex (idx : List Nat) (df : Series) :
    tsIndex (padReindex idx df) = idx := by
  simp only [tsIndex, padReindex, List.map_map]
  have h : (Prod.fst ∘ fun t : Nat => (t, lastLE df t)) = id := rfl
  rw [h, List.map_id]

/-- Accumulator of the per-symbol loop of
`HistoricCSVDataHandler._open_convert_csv_files`: the combined index so
far, the excluded symbols `dne`, the populated `symbol_data` entries and
the symbols whose `latest_symbol_data` was initialised to `[]`. -/
structure ConvState where
  comb_index : Option (List Nat)
  dne : List String
  symbol_data : List (String × Series)
  latest_init : List String

/-- Drop everything before the position of `start` in the index
(`temp_df.iloc[temp_df.index.get_loc(self.start_date):]`). -/
def dropStart (start : Nat) (df : Series) : Series :=
  df.drop ((tsIndex df).indexOf start)

/-- Record a symbol as excluded (`dne.append(sym)`). -/
def dneAdd (st : ConvState) (sym : String) : ConvState :=
  { st with dne := st.dne ++ [sym] }

/-- Record an included symbol: store its trimmed series and initialise its
rolling history.  The source then executes
`comb_index.union(self.symbol_data[sym].index.drop_duplicates())` in the
else-branch but never assigns the result back, so `comb_index` keeps the
index of the first included symbol. -/
def includeSym (st : ConvState) (sym : String) (filtered : Series) : ConvState :=
  { comb_index :=
      match st.comb_index with
      | none => some (tsIndex filtered)
      | some ci => some ci
  , dne := st.dne
  , symbol_data := st.symbol_data ++ [(sym, filtered)]
  , latest_init := st.latest_init ++ [sym] }

/-- One iteration of the per-symbol loop of `_open_convert_csv_files`:
a symbol whose index lacks the start date goes to `dne`; with an end date
given, a symbol whose index lacks it goes to `dne`, while an end date that
is present in the original index but not in the start-trimmed slice makes
`filtered.index.get_loc(self.end_date)` raise a `KeyError`, aborting
construction (the `.error` case).  The end slice `iloc[:get_loc(end)]`
excludes the end position itself. -/
def convertStep : Nat → Option Nat → ConvState → String × Series → Except Unit ConvState
  | start, none, st, p =>
      if start ∈ tsIndex p.2 then .ok (includeSym st p.1 (dropStart start p.2))
      else .ok (dneAdd st p.1)
  | start, some e, st, p =>
      if start ∈ tsIndex p.2 then
        if e ∈ tsIndex p.2 then
          if e ∈ tsIndex (dropStart start p.2) then
            .ok (includeSym st p.1
              ((dropStart start p.2).take ((tsIndex (dropStart start p.2)).indexOf e)))
          else .error ()
        else .ok (dneAdd st p.1)
      else .ok (dneAdd st p.1)

/-- The whole per-symbol loop: a raised `KeyError` propagates and aborts. -/
def convertFold (start : Nat) (endOpt : Option Nat) :
    ConvState → List (String × Series) → Except Unit ConvState
  | st, [] => .ok st
  | st, p :: rest =>
      match convertStep start endOpt st p with
      | .error e => .error e
      | .ok st' => convertFold start endOpt st' rest

/-- The aligned dataset produced at construction time. -/
structure AlignResult where
  symbol_list : List String
  symbol_data : List (String × Series)
  comb_index : List Nat
  latest_keys : List String
  deriving DecidableEq, Repr

/-- `HistoricCSVDataHandler._open_convert_csv_files` on the already-read
per-symbol dataframes `dfs` (one `(sym, df)` pair per entry of
`symbol_list`, in order): run the per-symbol loop, filter the excluded
symbols out of `symbol_list`, and reindex every stored series onto the
final `comb_index` with forward-fill and zero fill value. -/
def open_convert_csv_files (start : Nat) (endOpt : Option Nat)
    (dfs : List (String × Series)) : Except Unit AlignResult :=
  match convertFold start endOpt
      { comb_index := none, dne := [], symbol_data := [], latest_init := [] } dfs with
  | .error e => .error e
  | .ok st =>
      .ok { symbol_list := (dfs.map Prod.fst).filter (fun s => decide (s ∉ st.dne))
          , symbol_data := st.symbol_data.map
              (fun q => (q.1, padReindex (st.comb_index.getD []) q.2))
          , comb_index := st.comb_index.getD []
          , latest_keys := st.latest_init }

/-- C2: whenever construction-time alignment completes, every series stored
for a symbol of the active universe carries exactly the final combined
timestamp index, so all aligned series have identical timestamp sequences
and identical lengths — the rectangularity invariant — for every input set
of per-symbol series. -/
theorem alignment_rectangular (start : Nat) (endOpt : Option Nat)
    (dfs : List (String × Series)) (res : AlignResult)
    (h : open_convert_csv_files start endOpt dfs = .ok res) :
    (∀ p ∈ res.symbol_data, tsIndex p.2 = res.comb_index)
      ∧ ∀ p ∈ res.symbol_data, ∀ q ∈ res.symbol_data,
          tsIndex p.2 = tsIndex q.2 ∧ p.2.length = q.2.length := by
  unfold open_convert_csv_files at h
  cases hf : convertFold start endOpt
      { comb_index := none, dne := [], symbol_data := [], latest_init := [] } dfs with
  | error e => rw [hf] at h; cases h
  | ok st =>
    rw [hf] at h
    injection h with h'
    subst h'
    have hidx : ∀ p ∈ (st.symbol_data.map
        (fun q => (q.1, padReindex (st.comb_index.getD []) q.2))),
        tsIndex p.2 = st.comb_index.getD [] := by
      intro p hp
      obtain ⟨q, _, rfl⟩ := List.mem_map.mp hp
      exact tsIndex_padReindex _ _
    refine ⟨hidx, ?_⟩
    intro p hp q hq
    have h1 := hidx p hp
    have h2 := hidx q hq
    constructor
    · rw [h1, h2]
    · have hp' : p.2.length = (tsIndex p.2).length := (List.length_map _ _).symm
      have hq' : q.2.length = (tsIndex q.2).length := (List.length_map _ _).symm
      rw [hp', hq', h1, h2]

theorem convertStep_dne_mono (start : Nat) (endOpt : Option Nat)
    (st : ConvState) (p : String × Series) (st' : ConvState)
    (h : convertStep start endOpt st p = .ok st')
    (sym : String) (hm : sym ∈ st.dne) : sym ∈ st'.dne := by
  cases endOpt with
  | none =>
    simp only [convertStep] at h
    by_cases hs : start ∈ tsIndex p.2
    · rw [if_pos hs] at h; injection h with h'; subst h'; exact hm
    · rw [if_neg hs] at h; injection h with h'; subst h'
      exact List.mem_append_left _ hm
  | some e =>
    simp only [convertStep] at h
    by_cases hs : start ∈ tsIndex p.2
    · rw [if_pos hs] at h
      by_cases he : e ∈ tsIndex p.2
      · rw [if_pos he] at h
        by_cases he2 : e ∈ tsIndex (dropStart start p.2)
        · rw [if_pos he2] at h; injection h with h'; subst h'; exact hm
        · rw [if_neg he2] at h; cases h
      · rw [if_neg he] at h; injection h with h'; subst h'
        exact List.mem_append_left _ hm
    · rw [if_neg hs] at h; injection h with h'; subst h'
      exact List.mem_append_left _ hm

theorem convertStep_dne_of_missing (start : Nat) (endOpt : Option Nat)
    (st : ConvState) (p : String × Series) (st' : ConvState)
    (hcond : start ∉ tsIndex p.2 ∨ ∃ e, endOpt = some e ∧ e ∉ tsIndex p.2)
    (h : convertStep start endOpt st p = .ok st') :
    p.1 ∈ st'.dne := by
  have hself : p.1 ∈ st.dne ++ [p.1] :=
    List.mem_append_right _ (List.mem_singleton.mpr rfl)
  rcases hcond with hs | ⟨e, rfl, he⟩
  · cases endOpt with
    | none =>
      simp only [convertStep] at h
      rw [if_neg hs] at h; injection h with h'; subst h'; exact hself
    | some e =>
      simp only [convertStep] at h
      rw [if_neg hs] at h; injection h with h'; subst h'; exact hself
  · simp only [convertStep] at h
    by_cases hs : start ∈ tsIndex p.2
    · rw [if_pos hs, if_neg he] at h; injection h with h'; subst h'; exact hself
    · rw [if_neg hs] at h; injection h with h'; subst h'; exact hself

theorem convertFold_dne_mono (start : Nat) (endOpt : Option Nat) :
    ∀ (l : List (String × Series)) (st stf : ConvState),
      convertFold start endOpt st l = .ok stf →
      ∀ sym ∈ st.dne, sym ∈ stf.dne := by
  intro l
  induction l with
  | nil =>
    intro st stf h sym hm
    injection h with h'; subst h'; exact hm
  | cons p rest ih =>
    intro st stf h sym hm
    simp only [convertFold] at h
    cases hc : convertStep start endOpt st p with
    | error e => rw [hc] at h; cases h
    | ok st' =>
      rw [hc] at h
      exact ih st' stf h sym (convertStep_dne_mono start endOpt st p st' hc sym hm)

theorem convertFold_dne_of_missing (start : Nat) (endOpt : Option Nat)
    (sym : String) (df : Series)
    (hcond : start ∉ tsIndex df ∨ ∃ e, endOpt = some e ∧ e ∉ tsIndex df) :
    ∀ (l : List (String × Series)) (st stf : ConvState),
      (sym, df) ∈ l → convertFold start endOpt st l = .ok stf →
      sym ∈ stf.dne := by
  intro l
  induction l with
  | nil => intro st stf hmem _; cases hmem
  | cons p rest ih =>
    intro st stf hmem h
    simp only [convertFold] at h
    cases hc : convertStep start endOpt st p with
    | error e => rw [hc] at h; cases h
    | ok st' =>
      rw [hc] at h
      cases List.mem_cons.mp hmem with
      | inl hp =>
        subst hp
        have h1 : sym ∈ st'.dne :=
          convertStep_dne_of_missing start endOpt st (sym, df) st' hcond hc
        exact convertFold_dne_mono start endOpt rest st' stf h sym h1
      | inr hr => exact ih st' stf hr h

theorem open_convert_excludes (start : Nat) (endOpt : Option Nat)
    (dfs : List (String × Series)) (res : AlignResult) (sym : String) (df : Series)
    (hmem : (sym, df) ∈ dfs)
    (hcond : start ∉ tsIndex df ∨ ∃ e, endOpt = some e ∧ e ∉ tsIndex df)
    (h : open_convert_csv_files start endOpt dfs = .ok res) :
    sym ∉ res.symbol_list := by
  unfold open_convert_csv_files at h
  cases hf : convertFold start endOpt
      { comb_index := none, dne := [], symbol_data := [], latest_init := [] } dfs with
  | error e => rw [hf] at h; cases h
  | ok st =>
    rw [hf] at h
    injection h with h'
    subst h'
    intro hin
    have h2 := (List.mem_filter.mp hin).2
    rw [decide_eq_true_eq] at h2
    exact h2 (convertFold_dne_of_missing start endOpt sym df hcond dfs _ st hmem hf)

/-- Accumulator of the per-symbol loop of `FMPData._get_symbol_data`. -/
structure FmpConvState where
  comb_index : Option (List Nat)
  sym_to_remove : List String
  symbol_data : List (String × Series)

/-- The start trim of `FMPData._get_symbol_data`: applied only when the
start date is present in the index and the frequency is daily; otherwise
the series is left untouched (the symbol is not dropped). -/
def fmpTrimStart (startOpt : Option Nat) (isDaily : Bool) (df : Series) : Series :=
  match startOpt with
  | some sd =>
      if sd ∈ tsIndex df ∧ isDaily = true then df.drop ((tsIndex df).indexOf sd)
      else df
  | none => df

/-- The end trim of `FMPData._get_symbol_data`, same policy as the start
trim, applied to the already start-trimmed series. -/
def fmpTrimEnd (endOpt : Option Nat) (isDaily : Bool) (df : Series) : Series :=
  match endOpt with
  | some ed =>
      if ed ∈ tsIndex df ∧ isDaily = true then df.take ((tsIndex df).indexOf ed)
      else df
  | none => df

/-- One iteration of the per-symbol loop of `FMPData._get_symbol_data`: a
failed or empty fetch (`temp_df is None`) adds the symbol to
`sym_to_remove`; otherwise the series is (possibly) trimmed and stored.
The source then executes `comb_index.union(...)` without assigning the
result, so `comb_index` keeps the index of the first fetched symbol. -/
def fmpStep (startOpt endOpt : Option Nat) (isDaily : Bool)
    (st : FmpConvState) (p : String × Option Series) : FmpConvState :=
  match p.2 with
  | none => { st with sym_to_remove := st.sym_to_remove ++ [p.1] }
  | some df =>
      let df2 := fmpTrimEnd endOpt isDaily (fmpTrimStart startOpt isDaily df)
      { st with
        symbol_data := st.symbol_data ++ [(p.1, df2)]
        comb_index :=
          match st.comb_index with
          | none => some (tsIndex df2)
          | some ci => some ci }

/-- The dataset produced by `FMPData._get_symbol_data`. -/
structure FmpResult where
  symbol_list : List String
  symbol_data : List (String × Series)
  comb_index : List Nat
  latest_keys : List String
  deriving DecidableEq, Repr

/-- `FMPData._get_symbol_data` on the fetched per-symbol dataframes (one
`(sym, fetch result)` pair per entry of `symbol_list`, in order): process
every symbol, filter the failed fetches out of `symbol_list`, reindex the
survivors onto the final `comb_index` with forward-fill and zero fill, and
initialise their rolling histories. -/
def fmp_get_symbol_data (startOpt endOpt : Option Nat) (isDaily : Bool)
    (dfs : List (String × Option Series)) : FmpResult :=
  let st := dfs.foldl (fmpStep startOpt endOpt isDaily)
    { comb_index := none, sym_to_remove := [], symbol_data := [] }
  { symbol_list := (dfs.map Prod.fst).filter (fun s => decide (s ∉ st.sym_to_remove))
  , symbol_data := st.symbol_data.map
      (fun q => (q.1, padReindex (st.comb_index.getD []) q.2))
  , comb_index := st.comb_index.getD []
  , latest_keys := (dfs.map Prod.fst).filter (fun s => decide (s ∉ st.sym_to_remove)) }

theorem fmp_foldl_remove_subset (startOpt endOpt : Option Nat) (isDaily : Bool) :
    ∀ (l : List (String × Option Series)) (st : FmpConvState) (sym : String),
      sym ∈ (l.foldl (fmpStep startOpt endOpt isDaily) st).sym_to_remove →
      sym ∈ st.sym_to_remove ∨ (sym, (none : Option Series)) ∈ l := by
  intro l
  induction l with
  | nil => intro st sym h; exact Or.inl h
  | cons p rest ih =>
    intro st sym h
    obtain ⟨p1, p2⟩ := p
    rw [List.foldl_cons] at h
    rcases ih (fmpStep startOpt endOpt isDaily st (p1, p2)) sym h with h1 | h1
    · cases p2 with
      | none =>
        simp only [fmpStep] at h1
        rcases List.mem_append.mp h1 with h2 | h2
        · exact Or.inl h2
        · rw [List.mem_singleton.mp h2]
          exact Or.inr (List.mem_cons_self _ _)
      | some df =>
        simp only [fmpStep] at h1
        exact Or.inl h1
    · exact Or.inr (List.mem_cons_of_mem _ h1)

theorem fmp_keys_nodup_eq :
    ∀ (l : List (String × Option Series)) (s : String) (a b : Option Series),
      (l.map Prod.fst).Nodup → (s, a) ∈ l → (s, b) ∈ l → a = b := by
  intro l
  induction l with
  | nil => intro s a b _ ha; cases ha
  | cons p rest ih =>
    intro s a b hnd ha hb
    rw [List.map_cons, List.nodup_cons] at hnd
    cases List.mem_cons.mp ha with
    | inl h1 =>
      cases List.mem_cons.mp hb with
      | inl h2 =>
        have : (s, a) = (s, b) := h1.trans h2.symm
        exact (Prod.mk.injEq _ _ _ _).mp this |>.2
      | inr h2 =>
        exfalso
        apply hnd.1
        have : p.1 = s := by rw [← h1]
        rw [this]
        exact List.mem_map_of_mem Prod.fst h2
    | inr h1 =>
      cases List.mem_cons.mp hb with
      | inl h2 =>
        exfalso
        apply hnd.1
        have : p.1 = s := by rw [← h2]
        rw [this]
        exact List.mem_map_of_mem Prod.fst h1
      | inr h2 => exact ih s a b hnd.2 h1 h2

/-- C7 (amended): in `HistoricCSVDataHandler`, a symbol whose native index
lacks the requested start bound exactly, or lacks a given end bound
exactly, is dropped from the active universe; but the policy is not
uniform across variants: in `FMPData` a symbol whose fetch succeeded is
always kept in the universe — a missing start or end bound merely leaves
its series untrimmed and never causes exclusion (only a failed or empty
fetch excludes a symbol). -/
theorem bound_exclusion_policy :
    (∀ (start : Nat) (endOpt : Option Nat) (dfs : List (String × Series))
        (res : AlignResult) (sym : String) (df : Series),
        (sym, df) ∈ dfs → start ∉ tsIndex df →
        open_convert_csv_files start endOpt dfs = .ok res →
        sym ∉ res.symbol_list)
      ∧ (∀ (start e : Nat) (dfs : List (String × Series))
          (res : AlignResult) (sym : String) (df : Series),
          (sym, df) ∈ dfs → e ∉ tsIndex df →
          open_convert_csv_files start (some e) dfs = .ok res →
          sym ∉ res.symbol_list)
      ∧ (∀ (startOpt endOpt : Option Nat) (isDaily : Bool)
          (dfs : List (String × Option Series)) (sym : String) (df : Series),
          (dfs.map Prod.fst).Nodup → (sym, some df) ∈ dfs →
          sym ∈ (fmp_get_symbol_data startOpt endOpt isDaily dfs).symbol_list) := by
  refine ⟨?_, ?_, ?_⟩
  · intro start endOpt dfs res sym df hmem hs h
    exact open_convert_excludes start endOpt dfs res sym df hmem (Or.inl hs) h
  · intro start e dfs res sym df hmem he h
    exact open_convert_excludes start (some e) dfs res sym df hmem
      (Or.inr ⟨e, rfl, he⟩) h
  · intro startOpt endOpt isDaily dfs sym df hnd hmem
    have hkey : sym ∈ dfs.map Prod.fst := List.mem_map_of_mem Prod.fst hmem
    have hnr : sym ∉ (dfs.foldl (fmpStep startOpt endOpt isDaily)
        { comb_index := none, sym_to_remove := [], symbol_data := [] }).sym_to_remove := by
      intro hr
      rcases fmp_foldl_remove_subset startOpt endOpt isDaily dfs _ sym hr with h1 | h1
      · cases h1
      · exact Option.noConfusion (fmp_keys_nodup_eq dfs sym (some df) none hnd hmem h1)
    show sym ∈ (dfs.map Prod.fst).filter _
    exact List.mem_filter.mpr ⟨hkey, decide_eq_true_eq.mpr hnr⟩

/-- Input refuting uniform bound exclusion: `FMPData` fetched a series for
`"A"` whose index `[2]` does not contain the requested start bound `1`. -/
def fmpDfsMissing : List (String × Option Series) := [("A", some [(2, rowOne)])]

/-- Counterexample to C7 as stated: `FMPData` keeps symbol `"A"` in the
active universe although its native index lacks the requested start bound
exactly — the exclusion policy is not uniform across source variants. -/
theorem fmp_missing_bound_kept_counterexample :
    (fmp_get_symbol_data (some 1) none true fmpDfsMissing).symbol_list = ["A"]
      ∧ (1 : Nat) ∉ tsIndex [(2, rowOne)] := by
  exact ⟨rfl, by decide⟩

/-- Witness inputs for the amended exclusion policy: `"B"` lacks start `1`,
`"C"` lacks end `9`. -/
def dfsExcl : List (String × Series) :=
  [("A", [(1, rowOne), (9, rowTwo)]), ("B", [(2, rowOne)]), ("C", [(1, rowOne), (2, rowTwo)])]

/-- Witness for C7 at concrete inputs: the historical handler drops both a
symbol missing the start bound and a symbol missing the end bound, while
`FMPData` keeps a fetched symbol missing the start bound. -/
theorem bound_exclusion_policy_witness :
    "B" ∉ (AlignResult.mk ["A"]
        [("A", [(1, rowOne)])] [1] ["A"]).symbol_list
      ∧ "C" ∉ (AlignResult.mk ["A"]
        [("A", [(1, rowOne)])] [1] ["A"]).symbol_list
      ∧ "A" ∈ (fmp_get_symbol_data (some 1) none true fmpDfsMissing).symbol_list :=
  ⟨bound_exclusion_policy.1 1 (some 9) dfsExcl _ "B" [(2, rowOne)]
      (by decide) (by decide) (by rfl),
   bound_exclusion_policy.2.1 1 9 dfsExcl _ "C" [(1, rowOne), (2, rowTwo)]
      (by decide) (by decide) (by rfl),
   bound_exclusion_policy.2.2 (some 1) none true fmpDfsMissing "A" [(2, rowOne)]
      (by decide) (by decide)⟩

/-- Input exhibiting the discarded index union: symbol `"B"` has timestamp
`3`, absent from the first symbol's index. -/
def dfsUnion : List (String × Series) :=
  [("A", [(1, rowOne), (2, rowTwo)]), ("B", [(1, rowOne), (3, rowTwo)])]

/-- C1 evaluated at the failing input: because the source never assigns the
result of `comb_index.union(...)`, the canonical index stays `[1, 2]`, the
first symbol's index, and timestamp `3` of symbol `"B"`'s native series is
absent from the aligned index — refuting the claimed union semantics. -/
theorem comb_index_not_union :
    (open_convert_csv_files 1 none dfsUnion).map (fun r => r.comb_index)
        = .ok [1, 2]
      ∧ 3 ∈ tsIndex [(1, rowOne), (3, rowTwo)]
      ∧ 3 ∉ ([1, 2] : List Nat) := by
  exact ⟨rfl, by decide, by decide⟩

/-- Concrete input and expected output for the C2 witness. -/
def dfsRect : List (String × Series) :=
  [("A", [(1, rowOne)]), ("B", [(1, rowTwo), (2, rowTwo)])]

/-- The aligned result of `dfsRect` with start bound `1` and no end bound. -/
def rectRes : AlignResult :=
  { symbol_list := ["A", "B"]
  , symbol_data := [("A", [(1, rowOne)]), ("B", [(1, rowTwo)])]
  , comb_index := [1]
  , latest_keys := ["A", "B"] }

/-- Witness for C2 at the concrete input `dfsRect`. -/
theorem alignment_rectangular_witness :
    tsIndex (("A", ([(1, rowOne)] : Series))).2 = rectRes.comb_index :=
  (alignment_rectangular 1 none dfsRect rectRes (by rfl)).1
    ("A", [(1, rowOne)]) (by decide)

/-- Result of running a handler method: the Python return value, the handler
state after the call, and how many vendor HTTP requests the call issued. -/
structure MethodResult (α : Type) where
  ret : α
  state : HState
  fetches : Nat

/-- `HistoricCSVDataHandler.get_latest_bars` as a method: its body only reads
`self.latest_symbol_data` and builds the return dictionary; it assigns no
attribute of `self` and issues no network request. -/
def get_latest_bars_m (st : HState) (symbol : String) (N : Nat) :
    MethodResult (Option BarWindow × Bool) :=
  ⟨get_latest_bars st symbol N, st, 0⟩

/-- The return dictionary of `AlpacaData._conform_data_dict`: it always
carries `symbol` and `datetime`; the OHLC lists are present only for a
non-empty payload (the source returns early without them and never sets a
volume key). -/
structure ConformedBar where
  symbol : String
  datetime : List Nat
  fields : Option (List Int × List Int × List Int × List Int)
  deriving DecidableEq, Repr

/-- `AlpacaData._conform_data_dict` on vendor data already reshaped as an
indexed series. -/
def conform_data_dict (data : Series) (symbol : String) : ConformedBar :=
  if data.length = 0 then ⟨symbol, data.map Prod.fst, none⟩
  else
    ⟨symbol, data.map Prod.fst,
      some (data.map (·.2.open_), data.map (·.2.high),
        data.map (·.2.low), data.map (·.2.close))⟩

/-- Return value of `AlpacaData.get_latest_bars`: the live branch returns a
conformed vendor dictionary, the backtest branch returns the superclass's
bar window together with its error-logged flag. -/
inductive AlpacaRet where
  | conformed : ConformedBar → AlpacaRet
  | hist : Option BarWindow × Bool → AlpacaRet
  deriving DecidableEq

/-- `AlpacaData.get_latest_bars` as a method, the vendor modelled as an
oracle `vendor symbol limit` giving the rows of
`api.get_barset(symbol, '1D', limit=limit).df`: when `live` it issues one
vendor request and returns the conformed slice `iloc[-N:]` of the fetched
frame; otherwise it delegates to the superclass
`HistoricCSVDataHandler.get_latest_bars`.  Neither branch assigns any
attribute of `self`. -/
def alpaca_get_latest_bars (live : Bool) (vendor : String → Nat → Series)
    (st : HState) (symbol : String) (N : Nat) : MethodResult AlpacaRet :=
  if live then
    ⟨.conformed (conform_data_dict (pyLastSlice (vendor symbol (N + 5)) N) symbol),
      st, 1⟩
  else
    ⟨.hist (get_latest_bars st symbol N), st, 0⟩

/-- C4 (amended): `getLatestBars` leaves the source state (symbol universe,
symbol data, rolling history, continue flag) unchanged in every variant,
and for the historical/backtest variants (`HistoricCSVDataHandler`, the
inheriting `TDAData` and `FMPData`, and `AlpacaData` with `live=False`) it
reads only already-materialized history and issues no vendor fetch; the
`AlpacaData` live variant, however, issues exactly one vendor fetch per
call. -/
theorem get_latest_bars_frame (st : HState) (symbol : String) (N : Nat)
    (live : Bool) (vendor : String → Nat → Series) :
    (get_latest_bars_m st symbol N).state = st
      ∧ (get_latest_bars_m st symbol N).fetches = 0
      ∧ (alpaca_get_latest_bars live vendor st symbol N).state = st
      ∧ (alpaca_get_latest_bars live vendor st symbol N).fetches
          = (if live then 1 else 0) := by
  refine ⟨rfl, rfl, ?_, ?_⟩
  · cases live <;> rfl
  · cases live <;> rfl

/-- A concrete vendor oracle that always serves one bar at timestamp 1. -/
def constVendor : String → Nat → Series := fun _ _ => [(1, rowOne)]

/-- Counterexample to C4 as stated: in live mode `AlpacaData.get_latest_bars`
issues a vendor fetch (`api.get_barset`) during the call, so not every
variant avoids fetching. -/
theorem alpaca_live_get_latest_bars_fetches :
    (alpaca_get_latest_bars true constVendor sampleState2 "A" 1).fetches = 1
      ∧ ¬ ((alpaca_get_latest_bars true constVendor sampleState2 "A" 1).fetches = 0) :=
  ⟨rfl, Nat.one_ne_zero⟩

/-- `DataFrame.drop_duplicates()` on the concatenated cache frame: rows are
compared on the value columns only — the timestamp index takes no part in
the comparison — and the first occurrence of each row value is kept. -/
def drop_duplicates (seen : List BarRow) : Series → Series
  | [] => []
  | p :: rest =>
      if p.2 ∈ seen then drop_duplicates seen rest
      else p :: drop_duplicates (seen ++ [p.2]) rest

/-- Insert one indexed row into a series sorted by timestamp. -/
def insertByTs (p : Nat × BarRow) : Series → Series
  | [] => [p]
  | q :: rest => if p.1 ≤ q.1 then p :: q :: rest else q :: insertByTs p rest

/-- `df.sort_index()`: sort the rows by their timestamp index; on the ISO
date strings of the cache files (mapped to strings by the source) this is
chronological order. -/
def sort_index : Series → Series
  | [] => []
  | p :: rest => insertByTs p (sort_index rest)

/-- The merge performed by `FMPData._save_to_csv` when a cache file already
exists: `pd.concat([existing_df, df]).drop_duplicates()` followed by
`sort_index()`. -/
def save_to_csv_merge (existing_df df : Series) : Series :=
  sort_index (drop_duplicates [] (existing_df ++ df))

theorem insertByTs_perm (p : Nat × BarRow) (l : Series) :
    (insertByTs p l).Perm (p :: l) := by
  induction l with
  | nil => exact List.Perm.refl _
  | cons q rest ih =>
    unfold insertByTs
    split
    · exact List.Perm.refl _
    · exact (List.Perm.cons q ih).trans (List.Perm.swap p q rest)

theorem sort_index_perm (l : Series) : (sort_index l).Perm l := by
  induction l with
  | nil => exact List.Perm.refl _
  | cons p rest ih =>
    unfold sort_index
    exact (insertByTs_perm p (sort_index rest)).trans (List.Perm.cons p ih)

theorem insertByTs_sorted (p : Nat × BarRow) (l : Series)
    (h : l.Pairwise (fun a b => a.1 ≤ b.1)) :
    (insertByTs p l).Pairwise (fun a b => a.1 ≤ b.1) := by
  induction l with
  | nil => simp [insertByTs]
  | cons q rest ih =>
    rw [List.pairwise_cons] at h
    unfold insertByTs
    split
    · rename_i hle
      rw [List.pairwise_cons]
      constructor
      · intro x hx
        cases List.mem_cons.mp hx with
        | inl h1 => rw [h1]; exact hle
        | inr h1 => exact le_trans hle (h.1 x h1)
      · exact List.pairwise_cons.mpr h
    · rename_i hgt
      rw [List.pairwise_cons]
      constructor
      · intro x hx
        cases List.mem_cons.mp ((insertByTs_perm p rest).mem_iff.mp hx) with
        | inl h1 => rw [h1]; exact Nat.le_of_not_le hgt
        | inr h1 => exact h.1 x h1
      · exact ih h.2

theorem sort_index_sorted (l : Series) :
    (sort_index l).Pairwise (fun a b => a.1 ≤ b.1) := by
  induction l with
  | nil => simp [sort_index]
  | cons p rest ih =>
    unfold sort_index
    exact insertByTs_sorted p _ ih

theorem drop_duplicates_nodup (seen : List BarRow) (l : Series) :
    ((drop_duplicates seen l).map Prod.snd).Nodup
      ∧ ∀ r ∈ (drop_duplicates seen l).map Prod.snd, r ∉ seen := by
  induction l generalizing seen with
  | nil => simp [drop_duplicates]
  | cons p rest ih =>
    unfold drop_duplicates
    split
    · exact ih seen
    · rename_i hns
      obtain ⟨ih1, ih2⟩ := ih (seen ++ [p.2])
      constructor
      · rw [List.map_cons, List.nodup_cons]
        constructor
        · intro hmem
          exact ih2 p.2 hmem (List.mem_append_right _ (List.mem_singleton.mpr rfl))
        · exact ih1
      · intro r hr
        rw [List.map_cons] at hr
        cases List.mem_cons.mp hr with
        | inl h1 => rw [h1]; exact hns
        | inr h1 =>
          intro hseen
          exact ih2 r h1 (List.mem_append_left _ hseen)

/-- C8 (amended): the cache-append merge yields a series sorted by
timestamp in nondecreasing order and deduplicated on full row values —
exactly-equal rows are collapsed, so overlapping identical data leaves no
duplicate — but two entries that share a timestamp while disagreeing on
values are both retained, so duplicate timestamps can survive the merge. -/
theorem save_to_csv_merge_sorted_dedup (existing_df df : Series) :
    (save_to_csv_merge existing_df df).Pairwise (fun a b => a.1 ≤ b.1)
      ∧ ((save_to_csv_merge existing_df df).map Prod.snd).Nodup := by
  constructor
  · exact sort_index_sorted _
  · have hperm := (sort_index_perm (drop_duplicates [] (existing_df ++ df))).map Prod.snd
    exact hperm.nodup_iff.mpr (drop_duplicates_nodup [] _).1

/-- Counterexample to C8 as stated: the cached and fetched series disagree
at the shared timestamp `1`; `drop_duplicates` compares only row values,
so the merged cache retains two entries with the same timestamp. -/
theorem save_to_csv_merge_duplicate_ts :
    save_to_csv_merge [(1, rowOne)] [(1, rowTwo)] = [(1, rowOne), (1, rowTwo)]
      ∧ ¬ (List.map Prod.fst (save_to_csv_merge [(1, rowOne)] [(1, rowTwo)])).Nodup := by
  exact ⟨rfl, by decide⟩

theorem foldl_updateStep_exhausted (sym : String) :
    ∀ (l : List String) (st : HState), sym ∈ l → st.symbol_data sym = [] →
      (l.foldl updateStep st).continue_backtest = false := by
  intro l
  induction l with
  | nil => intro st hmem _; cases hmem
  | cons s rest ih =>
    intro st hmem hdat
    rw [List.foldl_cons]
    by_cases hs : sym = s
    · subst hs
      have h1 : updateStep st sym = { st with continue_backtest := false } := by
        unfold updateStep; rw [hdat]
      rw [h1]
      exact foldl_updateStep_continue_mono rest _ rfl
    · have hmem' : sym ∈ rest := by
        cases List.mem_cons.mp hmem with
        | inl h => exact absurd h hs
        | inr h => exact h
      have hdat' : (updateStep st s).symbol_data sym = [] := by
        unfold updateStep; split
        · exact hdat
        · simp only []
          rw [if_neg hs]
          exact hdat
      exact ih _ hmem' hdat'

/-- C6: whenever some symbol of the universe has an exhausted replay cursor,
the `update_bars` call sets the global `continue_backtest` flag to `false`
(first-exhausted-wins, ending the whole run); moreover no later operation
resets the flag to `true`: `update_bars` preserves a `false` flag and
`get_latest_bars` leaves the whole state untouched. -/
theorem exhaustion_stops_run :
    (∀ (st : HState) (sym : String), sym ∈ st.symbol_list →
        st.symbol_data sym = [] → (update_bars st).continue_backtest = false)
      ∧ (∀ st : HState, st.continue_backtest = false →
          (update_bars st).continue_backtest = false)
      ∧ (∀ (st : HState) (symbol : String) (N : Nat),
          (get_latest_bars_m st symbol N).state = st) := by
  refine ⟨?_, ?_, ?_⟩
  · intro st sym hmem hdat
    show (st.symbol_list.foldl updateStep st).continue_backtest = false
    exact foldl_updateStep_exhausted sym st.symbol_list st hmem hdat
  · intro st h
    show (st.symbol_list.foldl updateStep st).continue_backtest = false
    exact foldl_updateStep_continue_mono st.symbol_list st h
  · intro st symbol N
    rfl

/-- Witness for C3 at `sampleState` with `N = 3` after one advance: the
returned window has at most one entry. -/
theorem get_latest_bars_window_bounds_witness :
    (pyLastSlice ((advanceN sampleState 1).latest_symbol_data "A") 3).length ≤ 1 :=
  (get_latest_bars_window_bounds sampleState "A" 3 1 (by decide) (by decide)
    rfl (by decide)).2.2.1

/-- Counterexample to C3 as stated: after one advance, `get_latest_bars`
with `N = 0` returns a window holding 1 entry, which is more than `N = 0`
entries, because the slice `[-0:]` selects the whole history. -/
theorem get_latest_bars_zero_window_counterexample :
    (get_latest_bars (advanceN sampleState 1) "A" 0).1.map
        (fun bw => bw.datetime.length) = some 1
      ∧ ¬ (1 ≤ (0 : Nat)) := by
  exact ⟨rfl, by decide⟩

/-- Witness for C6 at the concrete state `exhaustedState`. -/
theorem exhaustion_stops_run_witness :
    (update_bars exhaustedState).continue_backtest = false
      ∧ (update_bars (update_bars exhaustedState)).continue_backtest = false
      ∧ (get_latest_bars_m exhaustedState "A" 1).state = exhaustedState :=
  ⟨exhaustion_stops_run.1 exhaustedState "A" (by decide) rfl,
   exhaustion_stops_run.2.1 _ (exhaustion_stops_run.1 exhaustedState "A" (by decide) rfl),
   exhaustion_stops_run.2.2 exhaustedState "A" 1⟩

/-- Witness for C9 at the concrete state `sampleState` and symbol `"Z"`. -/
theorem get_latest_bars_unknown_symbol_witness :
    "Z" ∉ sampleState.latest_keys ∧
      get_latest_bars sampleState "Z" 1 = (none, true) :=
  ⟨by decide, get_latest_bars_unknown_symbol sampleState "Z" 1 (by decide)⟩

/-- Witness for C10 at the concrete state `sampleState2`. -/
theorem get_latest_bars_zero_returns_all_witness :
    "A" ∈ sampleState2.latest_keys ∧
      get_latest_bars sampleState2 "A" 0 =
        (some (mkBarWindow "A" (sampleState2.latest_symbol_data "A")), false) :=
  ⟨by decide, get_latest_bars_zero_returns_all sampleState2 "A" (by decide)⟩

end Trading
